import Mathlib

/-!
Shallow embedding of the msrfuzz-rs program (src/main.rs) and verification of
its specification.  The program enumerates readable MSR addresses by probing a
fixed candidate address space through /dev/cpu/n/msr, classifying each probe as
success (register exists), expected failure (EIO, register unimplemented), or
fatal (any other error aborts via panic), accumulating results in a BTreeMap
and printing them in ascending address order.

The OS-level effects (the actual pread/open syscalls) are modelled as inputs:
a function from address to a `PreadResult` stands for the positioned read
against the single open handle, and an `OpenSysResult` stands for the outcome
of the open syscall.  Everything downstream of those outcomes is translated
directly from the Rust source.
-/

/-- Linux errno code for EIO, the distinguished "no such register" condition
(`nix::errno::Errno::EIO` in the source). -/
def errnoEio : Nat := 5

/-- Linux errno code for EACCES, permission denied
(`nix::errno::Errno::EACCES` in the source). -/
def errnoEacces : Nat := 13

/-- Embeds `nix::Error`: either a system errno (`nix::Error::Sys(eno)`) or any
of the library's non-errno error variants. -/
inductive NixError
  | sysErr (eno : Nat)
  | otherErr
deriving DecidableEq

/-- Outcome of the underlying positioned read (`nix::sys::uio::pread`).
On success the kernel wrote `data` (the bytes actually read, possibly fewer
than the 8 requested) into the start of the zero-initialised 8-byte buffer and
returned `data.length`. -/
inductive PreadResult
  | ok (data : List Nat)
  | fail (e : NixError)
deriving DecidableEq

/-- Result of `msr_read`: `Ok(u64)` (Success), `Err(&str)` (the expected
"Unsupported MSR" failure), or a panic that aborts the whole program
(the unexpected-failure path). -/
inductive MsrReadResult
  | ok (val : Nat)
  | err (msg : String)
  | fatal
deriving DecidableEq

/-- `u64::from_le_bytes`: little-endian interpretation, first byte least
significant. -/
def fromLeBytes : List Nat → Nat
  | [] => 0
  | b :: rest => b + 256 * fromLeBytes rest

/-- The 8-byte buffer as `msr_read` sees it after the read: `buf` starts as
`[0u8; 8]` and the read overwrites its first `data.length` bytes. -/
def readBuf (data : List Nat) : List Nat :=
  (data ++ List.replicate 8 0).take 8

/-- Embeds `msr_read` (src/main.rs lines 39-51) as a function of the pread
outcome: any `Ok(_)` (the byte count is ignored by the `Ok(_)` pattern) yields
`Ok(u64::from_le_bytes(buf))`; `Err(Sys(EIO))` yields `Err("Unsupported MSR")`;
every other error panics, aborting the program. -/
def msr_read (r : PreadResult) : MsrReadResult :=
  match r with
  | .ok data => .ok (fromLeBytes (readBuf data))
  | .fail (.sysErr eno) => if eno = errnoEio then .err "Unsupported MSR" else .fatal
  | .fail .otherErr => .fatal

/-- Outcome of the underlying `nix::fcntl::open` call. -/
inductive OpenSysResult
  | ok (fd : Int)
  | fail (e : NixError)
deriving DecidableEq

/-- Result of `msr_open`: `Ok(fd)`, `Err("Permission denied")`, or a panic. -/
inductive OpenResult
  | ok (fd : Int)
  | err (msg : String)
  | fatal
deriving DecidableEq

/-- Embeds `msr_open` (src/main.rs lines 14-27): `EACCES` becomes the
recoverable `Err("Permission denied")`; every other failure panics. -/
def msr_open (r : OpenSysResult) : OpenResult :=
  match r with
  | .ok fd => .ok fd
  | .fail (.sysErr eno) => if eno = errnoEacces then .err "Permission denied" else .fatal
  | .fail .otherErr => .fatal

/-- `REGION_LO_3950X = 0x0000_0000..0x0000_1000` as the ascending list of its
members (a Rust `Range<u32>` iterates in ascending order). -/
def REGION_LO_3950X : List Nat := List.range' 0x00000000 0x1000

/-- `REGION_HI_3950X = 0xc000_0000..0xc002_0000` as the ascending list of its
members. -/
def REGION_HI_3950X : List Nat := List.range' 0xc0000000 0x20000

/-- The Candidate Address Space in scan order: the two `for` loops in `main`
iterate the low region first, then the high region. -/
def candidateSpace : List Nat := REGION_LO_3950X ++ REGION_HI_3950X

/-- `const TGT_CORE: usize = 0`. -/
def TGT_CORE : Nat := 0

/-- BTreeMap insert on the model of a `BTreeMap<u32, u64>`: an association
list kept sorted by strictly ascending key; inserting an existing key replaces
its value. -/
def rinsert (a v : Nat) : List (Nat × Nat) → List (Nat × Nat)
  | [] => [(a, v)]
  | (k, w) :: rest =>
    if a < k then (a, v) :: (k, w) :: rest
    else if a = k then (a, v) :: rest
    else (k, w) :: rinsert a v rest

/-- BTreeMap lookup on the association-list model. -/
def rlookup (a : Nat) : List (Nat × Nat) → Option Nat
  | [] => none
  | (k, w) :: rest => if a = k then some w else rlookup a rest

/-- The keys of the map model, in list order. -/
def rkeys (m : List (Nat × Nat)) : List Nat := m.map Prod.fst

/-- Whether a key is present in the map model. -/
def rcontains (a : Nat) (m : List (Nat × Nat)) : Bool := (rlookup a m).isSome

/-- The scan loops of `main` (src/main.rs lines 71-82) over a list of
addresses, starting from accumulated map `m`: `if let Ok(val) = msr_read(..)`
inserts on `Ok`, silently skips the `Err` case, and a panic inside `msr_read`
aborts the whole program (`none`; no map survives). -/
def scanGo (probe : Nat → MsrReadResult) : List Nat → List (Nat × Nat) → Option (List (Nat × Nat))
  | [], m => some m
  | a :: rest, m =>
    match probe a with
    | .ok v => scanGo probe rest (rinsert a v m)
    | .err _ => scanGo probe rest m
    | .fatal => none

/-- The addresses on which the scan loop actually invokes `msr_read`, in
order: a panic at `a` means `a` itself was probed but nothing after it. -/
def probedAddrs (probe : Nat → MsrReadResult) : List Nat → List Nat
  | [] => []
  | a :: rest =>
    match probe a with
    | .fatal => [a]
    | _ => a :: probedAddrs probe rest

/-- Number of insertions during the scan whose key was already present in the
accumulated map (instrumentation for the no-overwrite invariant). -/
def scanOverwrites (probe : Nat → MsrReadResult) : List Nat → List (Nat × Nat) → Nat
  | [], _ => 0
  | a :: rest, m =>
    match probe a with
    | .ok v => (if rcontains a m then 1 else 0) + scanOverwrites probe rest (rinsert a v m)
    | .err _ => scanOverwrites probe rest m
    | .fatal => 0

/-- The probe as `main` performs it: `msr_read` applied to the positioned read
of the address against the open handle. -/
def probeOf (pread : Nat → PreadResult) (a : Nat) : MsrReadResult := msr_read (pread a)

/-- Minimal lower-case hex representation of `n`, most significant digit
first, as Rust `x` formatting produces (`0` for zero, digits above nine as
lower-case letters). -/
def hexRepr (n : Nat) : List Char := Nat.toDigits 16 n

/-- Zero-pad on the left to width `w`, as Rust `{:0wx}` formatting does. -/
def padLeft (w : Nat) (cs : List Char) : List Char :=
  List.replicate (w - cs.length) '0' ++ cs

/-- One contractual output line (src/main.rs line 85): the address as 8
zero-padded lower-case hex digits, a colon and a space, the value as 16
zero-padded lower-case hex digits. -/
def formatLine (a v : Nat) : String :=
  String.mk (padLeft 8 (hexRepr a)) ++ ": " ++ String.mk (padLeft 16 (hexRepr v))

/-- The Reporter (src/main.rs lines 84-86): one line per map entry, in the
map's own (key-ascending) order. -/
def report (m : List (Nat × Nat)) : List String :=
  m.map (fun p => formatLine p.1 p.2)

/-- The contractual standard-output lines produced by scanning `addrs`: the
report of the final map on completion, nothing at all if the scan aborted
(the panic fires before the print loop is reached). -/
def scanOutput (probe : Nat → MsrReadResult) (addrs : List Nat) : List String :=
  match scanGo probe addrs [] with
  | some m => report m
  | none => []

/-- Overall result of `main` as observable behaviour. -/
inductive MainResult
  | ok (lines : List String)
  | err (msg : String)
  | aborted
deriving DecidableEq

/-- Embeds `main` (src/main.rs lines 53-90) as a function of the open outcome
and the positioned-read behaviour: a failed open returns its error (non-zero
exit) or panics; otherwise the two region loops run and, on completion only,
the report is printed. -/
def mainRun (openRes : OpenSysResult) (pread : Nat → PreadResult) : MainResult :=
  match msr_open openRes with
  | .ok _ =>
    match scanGo (probeOf pread) candidateSpace [] with
    | some m => .ok (report m)
    | none => .aborted
  | .err e => .err e
  | .fatal => .aborted

/-- The addresses `main` actually probes: none at all unless the open
succeeded. -/
def mainProbed (openRes : OpenSysResult) (pread : Nat → PreadResult) : List Nat :=
  match msr_open openRes with
  | .ok _ => probedAddrs (probeOf pread) candidateSpace
  | _ => []

/-! ### Lemmas about the map model -/

/-- The map invariant: entries sorted by strictly ascending key. -/
def rsorted (m : List (Nat × Nat)) : Prop :=
  List.Pairwise (fun p q => p.1 < q.1) m

/-- Looking up the key just inserted finds the inserted value. -/
theorem rlookup_rinsert_self (a v : Nat) (m : List (Nat × Nat)) :
    rlookup a (rinsert a v m) = some v := by
  induction m with
  | nil => simp [rinsert, rlookup]
  | cons p rest ih =>
    obtain ⟨k, w⟩ := p
    by_cases h1 : a < k
    · simp [rinsert, rlookup, h1]
    · by_cases h2 : a = k
      · simp [rinsert, rlookup, h1, h2]
      · simp [rinsert, rlookup, h1, h2, ih]

/-- Inserting one key does not change lookups of other keys. -/
theorem rlookup_rinsert_ne (x a v : Nat) (m : List (Nat × Nat)) (hx : x ≠ a) :
    rlookup x (rinsert a v m) = rlookup x m := by
  induction m with
  | nil => simp [rinsert, rlookup, hx]
  | cons p rest ih =>
    obtain ⟨k, w⟩ := p
    by_cases h1 : a < k
    · simp [rinsert, rlookup, h1, hx]
    · by_cases h2 : a = k
      · subst h2
        simp [rinsert, rlookup, h1, hx]
      · simp [rinsert, rlookup, h1, h2, ih]

/-- A key is in `rkeys` exactly when its lookup succeeds. -/
theorem mem_rkeys_iff_rlookup (x : Nat) (m : List (Nat × Nat)) :
    x ∈ rkeys m ↔ (rlookup x m).isSome := by
  induction m with
  | nil => simp [rkeys, rlookup]
  | cons p rest ih =>
    obtain ⟨k, w⟩ := p
    by_cases h : x = k
    · subst h
      simp [rkeys, rlookup]
    · have hstep : x ∈ rkeys ((k, w) :: rest) ↔ x ∈ rkeys rest := by
        simp [rkeys, h]
      rw [hstep, ih, rlookup, if_neg h]

/-- Every entry of `rinsert a v m` is the new binding or an old entry. -/
theorem mem_rinsert (a v : Nat) (m : List (Nat × Nat)) (p : Nat × Nat)
    (hp : p ∈ rinsert a v m) : p = (a, v) ∨ p ∈ m := by
  induction m with
  | nil => simpa [rinsert] using hp
  | cons q rest ih =>
    obtain ⟨k, w⟩ := q
    by_cases h1 : a < k
    · simp only [rinsert, if_pos h1, List.mem_cons] at hp
      rcases hp with h | h | h
      · exact Or.inl h
      · exact Or.inr (by simp [h])
      · exact Or.inr (List.mem_cons_of_mem _ h)
    · by_cases h2 : a = k
      · simp only [rinsert, if_neg h1, if_pos h2, List.mem_cons] at hp
        rcases hp with h | h
        · exact Or.inl h
        · exact Or.inr (List.mem_cons_of_mem _ h)
      · simp only [rinsert, if_neg h1, if_neg h2, List.mem_cons] at hp
        rcases hp with h | h
        · exact Or.inr (by simp [h])
        · rcases ih h with h3 | h3
          · exact Or.inl h3
          · exact Or.inr (List.mem_cons_of_mem _ h3)

/-- `rinsert` preserves the sorted-by-key invariant. -/
theorem rsorted_rinsert (a v : Nat) (m : List (Nat × Nat)) (h : rsorted m) :
    rsorted (rinsert a v m) := by
  induction m with
  | nil => simp [rinsert, rsorted]
  | cons q rest ih =>
    obtain ⟨k, w⟩ := q
    rw [rsorted, List.pairwise_cons] at h
    obtain ⟨hk, hrest⟩ := h
    by_cases h1 : a < k
    · rw [rsorted]
      simp only [rinsert, if_pos h1]
      refine List.Pairwise.cons ?_ (List.Pairwise.cons hk hrest)
      intro q hq
      rcases List.mem_cons.1 hq with rfl | hq
      · exact h1
      · exact lt_trans h1 (hk q hq)
    · by_cases h2 : a = k
      · subst h2
        rw [rsorted]
        simp only [rinsert, if_neg h1, if_pos rfl]
        exact List.Pairwise.cons hk hrest
      · rw [rsorted]
        simp only [rinsert, if_neg h1, if_neg h2]
        refine List.Pairwise.cons ?_ (ih hrest)
        intro q hq
        rcases mem_rinsert a v rest q hq with rfl | hq
        · exact Nat.lt_of_le_of_ne (Nat.le_of_not_lt h1) (Ne.symm h2)
        · exact hk q hq

/-- A sorted map has no duplicate keys. -/
theorem rsorted_nodup_rkeys (m : List (Nat × Nat)) (h : rsorted m) :
    (rkeys m).Nodup := by
  rw [rkeys]
  exact List.Pairwise.map Prod.fst (fun p q hpq => Nat.ne_of_lt hpq) h

/-! ### Lemmas about the scan loop -/

/-- Every key of a completed scan's map came from the initial map or from the
scanned address list. -/
theorem scanGo_rkeys_sub (probe : Nat → MsrReadResult) (addrs : List Nat)
    (m m' : List (Nat × Nat)) (h : scanGo probe addrs m = some m') :
    ∀ x, x ∈ rkeys m' → x ∈ rkeys m ∨ x ∈ addrs := by
  induction addrs generalizing m with
  | nil =>
    simp only [scanGo, Option.some.injEq] at h
    subst h
    exact fun x hx => Or.inl hx
  | cons a rest ih =>
    intro x hx
    simp only [scanGo] at h
    rcases hp : probe a with v | s
    · rw [hp] at h
      rcases ih (rinsert a v m) h x hx with h1 | h1
      · rw [mem_rkeys_iff_rlookup] at h1
        by_cases hxa : x = a
        · exact Or.inr (by simp [hxa])
        · rw [rlookup_rinsert_ne x a v m hxa, ← mem_rkeys_iff_rlookup] at h1
          exact Or.inl h1
      · exact Or.inr (List.mem_cons_of_mem _ h1)
    · rw [hp] at h
      rcases ih m h x hx with h1 | h1
      · exact Or.inl h1
      · exact Or.inr (List.mem_cons_of_mem _ h1)
    · rw [hp] at h
      cases h

/-- A completed scan preserves the sorted-map invariant. -/
theorem scanGo_rsorted (probe : Nat → MsrReadResult) (addrs : List Nat)
    (m m' : List (Nat × Nat)) (hs : rsorted m)
    (h : scanGo probe addrs m = some m') : rsorted m' := by
  induction addrs generalizing m with
  | nil =>
    simp only [scanGo, Option.some.injEq] at h
    exact h ▸ hs
  | cons a rest ih =>
    simp only [scanGo] at h
    rcases hp : probe a with v | s
    · rw [hp] at h
      exact ih (rinsert a v m) (rsorted_rinsert a v m hs) h
    · rw [hp] at h
      exact ih m hs h
    · rw [hp] at h
      cases h

/-- Scanning addresses that do not include `b` leaves the lookup of `b`
unchanged. -/
theorem scanGo_rlookup_not_mem (probe : Nat → MsrReadResult) (addrs : List Nat)
    (m m' : List (Nat × Nat)) (b : Nat) (hb : b ∉ addrs)
    (h : scanGo probe addrs m = some m') : rlookup b m' = rlookup b m := by
  induction addrs generalizing m with
  | nil =>
    simp only [scanGo, Option.some.injEq] at h
    exact h ▸ rfl
  | cons a rest ih =>
    have hba : b ≠ a := fun e => hb (e ▸ List.mem_cons_self a rest)
    have hbr : b ∉ rest := fun hh => hb (List.mem_cons_of_mem _ hh)
    simp only [scanGo] at h
    rcases hp : probe a with v | s
    · rw [hp] at h
      rw [ih (rinsert a v m) hbr h, rlookup_rinsert_ne b a v m hba]
    · rw [hp] at h
      exact ih m hbr h
    · rw [hp] at h
      cases h

/-- In a completed scan over duplicate-free addresses, each scanned address
ends with the value of its own probe: the success value if it succeeded, its
pre-scan lookup (no entry) if it was the expected failure. -/
theorem scanGo_rlookup (probe : Nat → MsrReadResult) (addrs : List Nat)
    (m m' : List (Nat × Nat)) (hnd : addrs.Nodup)
    (h : scanGo probe addrs m = some m') :
    ∀ a ∈ addrs,
      (∀ v, probe a = .ok v → rlookup a m' = some v) ∧
      (∀ s, probe a = .err s → rlookup a m' = rlookup a m) := by
  induction addrs generalizing m with
  | nil => intro a ha; cases ha
  | cons b rest ih =>
    have hbr : b ∉ rest := (List.nodup_cons.1 hnd).1
    have hndr : rest.Nodup := (List.nodup_cons.1 hnd).2
    intro a ha
    simp only [scanGo] at h
    rcases List.mem_cons.1 ha with rfl | har
    · constructor
      · intro v hv
        rw [hv] at h
        rw [scanGo_rlookup_not_mem probe rest (rinsert a v m) m' a hbr h]
        exact rlookup_rinsert_self a v m
      · intro s hs
        rw [hs] at h
        exact scanGo_rlookup_not_mem probe rest m m' a hbr h
    · have hab : a ≠ b := fun e => hbr (e ▸ har)
      rcases hp : probe b with v | s
      · rw [hp] at h
        have := ih (rinsert b v m) hndr h a har
        exact ⟨this.1, fun s hs => by
          rw [this.2 s hs, rlookup_rinsert_ne a b v m hab]⟩
      · rw [hp] at h
        exact ih m hndr h a har
      · rw [hp] at h
        cases h

/-- Over duplicate-free addresses whose keys are all fresh, no insertion ever
hits an existing key. -/
theorem scanOverwrites_eq_zero (probe : Nat → MsrReadResult) (addrs : List Nat)
    (m : List (Nat × Nat)) (hnd : addrs.Nodup)
    (hdisj : ∀ x ∈ addrs, x ∉ rkeys m) :
    scanOverwrites probe addrs m = 0 := by
  induction addrs generalizing m with
  | nil => rfl
  | cons a rest ih =>
    have har : a ∉ rest := (List.nodup_cons.1 hnd).1
    have hndr : rest.Nodup := (List.nodup_cons.1 hnd).2
    simp only [scanOverwrites]
    rcases hp : probe a with v | s
    · have hna : rcontains a m = false := by
        rw [rcontains]
        have := hdisj a (List.mem_cons_self a rest)
        rw [mem_rkeys_iff_rlookup] at this
        simpa using this
      rw [hna]
      simp only [if_neg Bool.false_ne_true, Nat.zero_add]
      refine ih (rinsert a v m) hndr ?_
      intro x hx hmem
      rw [mem_rkeys_iff_rlookup] at hmem
      have hxa : x ≠ a := fun e => har (e ▸ hx)
      rw [rlookup_rinsert_ne x a v m hxa, ← mem_rkeys_iff_rlookup] at hmem
      exact hdisj x (List.mem_cons_of_mem _ hx) hmem
    · exact ih m hndr fun x hx => hdisj x (List.mem_cons_of_mem _ hx)
    · rfl

/-- When no probe is fatal, every listed address is probed, in list order. -/
theorem probedAddrs_eq_of_no_fatal (probe : Nat → MsrReadResult)
    (addrs : List Nat) (h : ∀ a ∈ addrs, probe a ≠ .fatal) :
    probedAddrs probe addrs = addrs := by
  induction addrs with
  | nil => rfl
  | cons a rest ih =>
    have ha := h a (List.mem_cons_self a rest)
    simp only [probedAddrs]
    rcases hp : probe a with v | s
    · simpa using ih fun x hx => h x (List.mem_cons_of_mem _ hx)
    · simpa using ih fun x hx => h x (List.mem_cons_of_mem _ hx)
    · exact absurd hp ha

/-- The scan aborts exactly at the first fatal probe: everything before it is
probed, nothing after it. -/
theorem probedAddrs_fatal (probe : Nat → MsrReadResult) (pre post : List Nat)
    (a : Nat) (hpre : ∀ x ∈ pre, probe x ≠ .fatal) (ha : probe a = .fatal) :
    probedAddrs probe (pre ++ a :: post) = pre ++ [a] := by
  induction pre with
  | nil =>
    simp only [List.nil_append, probedAddrs, ha]
  | cons b rest ih =>
    have hb := hpre b (List.mem_cons_self b rest)
    simp only [List.cons_append, probedAddrs]
    rcases hp : probe b with v | s
    · simpa using ih fun x hx => hpre x (List.mem_cons_of_mem _ hx)
    · simpa using ih fun x hx => hpre x (List.mem_cons_of_mem _ hx)
    · exact absurd hp hb

/-- The scan returns no map when some probed address is fatal. -/
theorem scanGo_none_of_fatal (probe : Nat → MsrReadResult) (pre post : List Nat)
    (a : Nat) (m : List (Nat × Nat)) (hpre : ∀ x ∈ pre, probe x ≠ .fatal)
    (ha : probe a = .fatal) : scanGo probe (pre ++ a :: post) m = none := by
  induction pre generalizing m with
  | nil => simp only [List.nil_append, scanGo, ha]
  | cons b rest ih =>
    have hb := hpre b (List.mem_cons_self b rest)
    simp only [List.cons_append, scanGo]
    rcases hp : probe b with v | s
    · simpa using ih (rinsert b v m) fun x hx => hpre x (List.mem_cons_of_mem _ hx)
    · simpa using ih m fun x hx => hpre x (List.mem_cons_of_mem _ hx)
    · exact absurd hp hb

/-- A completed scan had no fatal probe. -/
theorem scanGo_no_fatal (probe : Nat → MsrReadResult) (addrs : List Nat)
    (m m' : List (Nat × Nat)) (h : scanGo probe addrs m = some m') :
    ∀ a ∈ addrs, probe a ≠ .fatal := by
  induction addrs generalizing m with
  | nil => intro a ha; cases ha
  | cons b rest ih =>
    intro a ha
    simp only [scanGo] at h
    rcases hp : probe b with v | s
    · rw [hp] at h
      rcases List.mem_cons.1 ha with rfl | har
      · rw [hp]; intro e; cases e
      · exact ih (rinsert b v m) h a har
    · rw [hp] at h
      rcases List.mem_cons.1 ha with rfl | har
      · rw [hp]; intro e; cases e
      · exact ih m h a har
    · rw [hp] at h
      cases h

/-- The scan result depends only on the probe outcomes of the scanned
addresses. -/
theorem scanGo_congr (p1 p2 : Nat → MsrReadResult) (addrs : List Nat)
    (m : List (Nat × Nat)) (h : ∀ a ∈ addrs, p1 a = p2 a) :
    scanGo p1 addrs m = scanGo p2 addrs m := by
  induction addrs generalizing m with
  | nil => rfl
  | cons a rest ih =>
    have ha := h a (List.mem_cons_self a rest)
    have hrest : ∀ x ∈ rest, p1 x = p2 x := fun x hx => h x (List.mem_cons_of_mem _ hx)
    simp only [scanGo, ha]
    rcases hp : p2 a with v | s
    · exact ih (rinsert a v m) hrest
    · exact ih m hrest
    · rfl

/-! ### The candidate address space -/

/-- The low region holds exactly the addresses below `0x1000`. -/
theorem mem_REGION_LO (a : Nat) : a ∈ REGION_LO_3950X ↔ a < 0x1000 := by
  rw [show REGION_LO_3950X = List.range' 0x00000000 0x1000 from rfl, List.mem_range'_1]
  omega

/-- The high region holds exactly the addresses in `[0xc0000000, 0xc0020000)`. -/
theorem mem_REGION_HI (a : Nat) :
    a ∈ REGION_HI_3950X ↔ 0xc0000000 ≤ a ∧ a < 0xc0020000 := by
  rw [show REGION_HI_3950X = List.range' 0xc0000000 0x20000 from rfl, List.mem_range'_1]

/-- Membership in the whole candidate space. -/
theorem mem_candidateSpace (a : Nat) :
    a ∈ candidateSpace ↔ a < 0x1000 ∨ (0xc0000000 ≤ a ∧ a < 0xc0020000) := by
  rw [show candidateSpace = REGION_LO_3950X ++ REGION_HI_3950X from rfl, List.mem_append,
    mem_REGION_LO, mem_REGION_HI]

/-- No address occurs twice in the candidate space. -/
theorem candidateSpace_nodup : candidateSpace.Nodup := by
  rw [show candidateSpace = REGION_LO_3950X ++ REGION_HI_3950X from rfl]
  refine List.Nodup.append ?_ ?_ ?_
  · exact List.nodup_range' _ _
  · exact List.nodup_range' _ _
  · intro a haLO haHI
    rw [mem_REGION_LO] at haLO
    rw [mem_REGION_HI] at haHI
    omega

/-- The low region is listed in strictly ascending order. -/
theorem REGION_LO_ascending : List.Pairwise (fun x y => x < y) REGION_LO_3950X :=
  List.pairwise_lt_range' _ _

/-- The high region is listed in strictly ascending order. -/
theorem REGION_HI_ascending : List.Pairwise (fun x y => x < y) REGION_HI_3950X :=
  List.pairwise_lt_range' _ _

/-- The empty map satisfies the sorted invariant. -/
theorem rsorted_nil : rsorted [] := List.Pairwise.nil

/-! ### The claims -/

/-- Claim C1 counterexample: the `Ok(_)` arm of `msr_read` ignores the byte
count returned by `pread`, so a positioned read that returns successfully with
only 4 of the 8 requested bytes IS classified as Success (with the unwritten
buffer bytes still zero), contradicting the claim that a short read is never
classified as Success. -/
theorem C1_short_read_counterexample :
    ([1, 2, 3, 4] : List Nat).length < 8 ∧
    msr_read (PreadResult.ok [1, 2, 3, 4]) = MsrReadResult.ok 0x04030201 := by
  constructor
  · decide
  · rfl

/-- Claim C1 (amended): if the underlying positioned read fails with any error
other than the distinguished EIO condition, `msr_read` panics, aborting the
whole program; an EIO failure is the expected "Unsupported MSR" result; and a
read that returns successfully is classified as Success regardless of how many
bytes were read — the byte count is ignored, so short reads are not detected. -/
theorem C1_error_classification (eno : Nat) (h : eno ≠ errnoEio) :
    msr_read (PreadResult.fail (NixError.sysErr eno)) = MsrReadResult.fatal ∧
    msr_read (PreadResult.fail NixError.otherErr) = MsrReadResult.fatal ∧
    msr_read (PreadResult.fail (NixError.sysErr errnoEio)) =
      MsrReadResult.err "Unsupported MSR" ∧
    ∀ data : List Nat,
      msr_read (PreadResult.ok data) = MsrReadResult.ok (fromLeBytes (readBuf data)) := by
  refine ⟨?_, rfl, ?_, fun data => rfl⟩
  · simp [msr_read, h]
  · simp [msr_read]

/-- Witness for C1: errno 13 (EACCES) at read time is fatal. -/
theorem C1_error_classification_witness :
    msr_read (PreadResult.fail (NixError.sysErr 13)) = MsrReadResult.fatal :=
  (C1_error_classification 13 (by decide)).1

/-- Claim C2: the scan visits every address of the candidate space exactly
once (the space is duplicate-free and, absent a fatal probe, the probed list
is exactly the space), never probes outside it, and the visiting order is the
concatenation of the two configured ranges in ascending order, low region
first. -/
theorem C2_coverage_and_order (probe : Nat → MsrReadResult)
    (h : ∀ a ∈ candidateSpace, probe a ≠ MsrReadResult.fatal) :
    candidateSpace.Nodup ∧
    (∀ a, a ∈ candidateSpace ↔ a < 0x1000 ∨ (0xc0000000 ≤ a ∧ a < 0xc0020000)) ∧
    candidateSpace = REGION_LO_3950X ++ REGION_HI_3950X ∧
    List.Pairwise (fun x y => x < y) REGION_LO_3950X ∧
    List.Pairwise (fun x y => x < y) REGION_HI_3950X ∧
    probedAddrs probe candidateSpace = candidateSpace :=
  ⟨candidateSpace_nodup, mem_candidateSpace, rfl, REGION_LO_ascending,
    REGION_HI_ascending, probedAddrs_eq_of_no_fatal probe candidateSpace h⟩

/-- Witness for C2: a probe that always reports the expected failure walks the
whole candidate space. -/
theorem C2_coverage_and_order_witness :
    probedAddrs (fun _ => MsrReadResult.err "Unsupported MSR") candidateSpace =
      candidateSpace :=
  (C2_coverage_and_order (fun _ => MsrReadResult.err "Unsupported MSR")
    (fun _ _ e => MsrReadResult.noConfusion e)).2.2.2.2.2

/-- Claim C10: the hard-coded configuration is core index 0 and exactly the
two disjoint half-open ranges `[0x00000000, 0x00001000)` and
`[0xc0000000, 0xc0020000)`, scanned low range first, for a total of
`0x1000 + 0x20000 = 135168` candidate addresses. -/
theorem C10_configuration :
    TGT_CORE = 0 ∧
    candidateSpace = REGION_LO_3950X ++ REGION_HI_3950X ∧
    REGION_LO_3950X.length = 0x1000 ∧
    REGION_HI_3950X.length = 0x20000 ∧
    candidateSpace.length = 135168 ∧
    (∀ a, a ∈ REGION_LO_3950X ↔ a < 0x1000) ∧
    (∀ a, a ∈ REGION_HI_3950X ↔ 0xc0000000 ≤ a ∧ a < 0xc0020000) ∧
    ∀ a ∈ REGION_LO_3950X, a ∉ REGION_HI_3950X := by
  refine ⟨rfl, rfl, ?_, ?_, ?_, mem_REGION_LO, mem_REGION_HI, ?_⟩
  · exact List.length_range' ..
  · exact List.length_range' ..
  · rw [show candidateSpace = REGION_LO_3950X ++ REGION_HI_3950X from rfl,
      List.length_append,
      show REGION_LO_3950X.length = 0x1000 from List.length_range' ..,
      show REGION_HI_3950X.length = 0x20000 from List.length_range' ..]
  · intro a haLO haHI
    rw [mem_REGION_LO] at haLO
    rw [mem_REGION_HI] at haHI
    omega

/-- Claim C3: every probe outcome is routed to exactly one of three handlers:
a success inserts the (address, value) pair into the Result Map, the expected
failure is silently skipped (no entry, scan continues), and a fatal outcome
aborts the scan (no map survives); a scan that completes had no fatal
outcome. -/
theorem C3_classification_completeness (probe : Nat → MsrReadResult)
    (addrs : List Nat) (hnd : addrs.Nodup) :
    (∀ m', scanGo probe addrs [] = some m' →
      ∀ a ∈ addrs,
        (∀ v, probe a = MsrReadResult.ok v → rlookup a m' = some v) ∧
        (∀ s, probe a = MsrReadResult.err s → rlookup a m' = none) ∧
        probe a ≠ MsrReadResult.fatal) ∧
    (∀ pre post a, addrs = pre ++ a :: post →
      (∀ x ∈ pre, probe x ≠ MsrReadResult.fatal) →
      probe a = MsrReadResult.fatal → scanGo probe addrs [] = none) := by
  constructor
  · intro m' h a ha
    have hl := scanGo_rlookup probe addrs [] m' hnd h a ha
    exact ⟨hl.1, fun s hs => by rw [hl.2 s hs]; rfl,
      scanGo_no_fatal probe addrs [] m' h a ha⟩
  · intro pre post a he hpre ha
    rw [he]
    exact scanGo_none_of_fatal probe pre post a [] hpre ha

/-- Witness for C3, on the scenario of the spec: addresses 0 and 2 succeed
with 0, address 1 succeeds with 0xAA, address 3 is the expected failure; the
successful addresses are inserted and address 3 gets no entry. -/
theorem C3_classification_completeness_witness :
    rlookup 1 [(0, 0), (1, 0xAA), (2, 0)] = some 0xAA ∧
    rlookup 3 [(0, 0), (1, 0xAA), (2, 0)] = none := by
  have h := (C3_classification_completeness
    (fun a => if a = 1 then MsrReadResult.ok 0xAA
      else if a = 3 then MsrReadResult.err "Unsupported MSR" else MsrReadResult.ok 0)
    [0, 1, 2, 3] (by decide)).1 [(0, 0), (1, 0xAA), (2, 0)] rfl
  exact ⟨(h 1 (by decide)).1 0xAA rfl, (h 3 (by decide)).2.1 "Unsupported MSR" rfl⟩

/-- Claim C4: if a probed address yields the fatal outcome, the scan stops
there (everything before it and the fatal address itself are probed, nothing
after it), no Result Map reaches the Reporter, and no contractual output line
is emitted. -/
theorem C4_abort_on_unexpected (probe : Nat → MsrReadResult) (pre post : List Nat)
    (a : Nat) (hpre : ∀ x ∈ pre, probe x ≠ MsrReadResult.fatal)
    (ha : probe a = MsrReadResult.fatal) :
    scanGo probe (pre ++ a :: post) [] = none ∧
    probedAddrs probe (pre ++ a :: post) = pre ++ [a] ∧
    scanOutput probe (pre ++ a :: post) = [] := by
  have h1 := scanGo_none_of_fatal probe pre post a [] hpre ha
  refine ⟨h1, probedAddrs_fatal probe pre post a hpre ha, ?_⟩
  simp only [scanOutput, h1]

/-- Witness for C4: with a fatal outcome at address 1, the scan of
`[0, 1, 2]` probes only 0 and 1 and emits nothing. -/
theorem C4_abort_on_unexpected_witness :
    probedAddrs (fun a => if a = 1 then MsrReadResult.fatal else MsrReadResult.ok 0)
      [0, 1, 2] = [0, 1] ∧
    scanOutput (fun a => if a = 1 then MsrReadResult.fatal else MsrReadResult.ok 0)
      [0, 1, 2] = [] := by
  have h := C4_abort_on_unexpected
    (fun a => if a = 1 then MsrReadResult.fatal else MsrReadResult.ok 0)
    [0] [2] 1 (by decide) (by decide)
  exact ⟨h.2.1, h.2.2⟩

/-- Claim C5: on a successful scan the Result Map's keys are in strictly
ascending order — whatever the discovery order was — and the Reporter emits
exactly one line per entry, in map order, of the form
`<address as 8 hex digits>: <value as 16 hex digits>` in zero-padded
lower-case hex (checked concretely on the spec's examples). -/
theorem C5_report_format_and_order (probe : Nat → MsrReadResult)
    (addrs : List Nat) (m : List (Nat × Nat))
    (h : scanGo probe addrs [] = some m) :
    List.Pairwise (fun x y => x < y) (rkeys m) ∧
    (report m).length = m.length ∧
    report m = m.map (fun p => formatLine p.1 p.2) ∧
    formatLine 0 0 = "00000000: 0000000000000000" ∧
    formatLine 1 0xAA = "00000001: 00000000000000aa" ∧
    report (rinsert 3 30 (rinsert 1 10 (rinsert 5 50 []))) =
      [formatLine 1 10, formatLine 3 30, formatLine 5 50] := by
  have hs := scanGo_rsorted probe addrs [] m rsorted_nil h
  refine ⟨List.Pairwise.map Prod.fst (fun p q hpq => hpq) hs, ?_, rfl, rfl, rfl, rfl⟩
  simp [report]

/-- Witness for C5: discovering addresses in the order 5, 1, 3 still leaves
the map — and hence the report — in ascending key order 1, 3, 5. -/
theorem C5_report_format_and_order_witness :
    List.Pairwise (fun x y => x < y) (rkeys [(1, 10), (3, 30), (5, 50)]) :=
  (C5_report_format_and_order (fun a => MsrReadResult.ok (10 * a))
    [5, 1, 3] [(1, 10), (3, 30), (5, 50)] rfl).1

/-- Claim C6: the 64-bit value recorded in the Result Map for a successful
probe equals the 8 bytes returned by the positioned read interpreted in
little-endian byte order. -/
theorem C6_little_endian (pread : Nat → PreadResult) (addrs : List Nat)
    (a : Nat) (data : List Nat) (m : List (Nat × Nat)) (hnd : addrs.Nodup)
    (ha : a ∈ addrs) (hd : pread a = PreadResult.ok data) (hlen : data.length = 8)
    (hm : scanGo (probeOf pread) addrs [] = some m) :
    rlookup a m = some (fromLeBytes data) := by
  have hbuf : readBuf data = data := by
    rw [readBuf, ← hlen, List.take_left]
  have hp : probeOf pread a = MsrReadResult.ok (fromLeBytes data) := by
    rw [probeOf, hd]
    simp [msr_read, hbuf]
  exact (scanGo_rlookup (probeOf pread) addrs [] m hnd hm a ha).1 _ hp

/-- Witness for C6: bytes 01 02 .. 08 read at address 0 are recorded as the
little-endian value 0x0807060504030201. -/
theorem C6_little_endian_witness :
    rlookup 0 [(0, 0x0807060504030201)] = some 0x0807060504030201 :=
  C6_little_endian (fun _ => PreadResult.ok [1, 2, 3, 4, 5, 6, 7, 8]) [0] 0
    [1, 2, 3, 4, 5, 6, 7, 8] [(0, 0x0807060504030201)] (by decide) (by decide)
    rfl (by decide) rfl

/-- Claim C7: scanning a duplicate-free address list from the empty map never
inserts onto an existing key (no overwrite ever occurs), and the final Result
Map never holds two entries for the same address. -/
theorem C7_no_duplicate_keys (probe : Nat → MsrReadResult) (addrs : List Nat)
    (hnd : addrs.Nodup) :
    scanOverwrites probe addrs [] = 0 ∧
    ∀ m, scanGo probe addrs [] = some m → (rkeys m).Nodup := by
  refine ⟨scanOverwrites_eq_zero probe addrs [] hnd ?_, ?_⟩
  · intro x _ hx
    simp [rkeys] at hx
  · intro m h
    exact rsorted_nodup_rkeys m (scanGo_rsorted probe addrs [] m rsorted_nil h)

/-- Witness for C7: an all-success scan of three distinct addresses performs
no overwriting insertion. -/
theorem C7_no_duplicate_keys_witness :
    scanOverwrites (fun a => MsrReadResult.ok a) [1, 2, 3] [] = 0 :=
  (C7_no_duplicate_keys (fun a => MsrReadResult.ok a) [1, 2, 3] (by decide)).1

/-- Claim C8: a permission-denied (EACCES) open failure is returned as the
distinguished recoverable error, which `main` turns into a clean error exit
with the message "Permission denied"; every other open failure panics; and no
probe is ever issued when the open did not succeed. -/
theorem C8_open_failure (eno : Nat) (h : eno ≠ errnoEacces) :
    msr_open (OpenSysResult.fail (NixError.sysErr errnoEacces)) =
      OpenResult.err "Permission denied" ∧
    msr_open (OpenSysResult.fail (NixError.sysErr eno)) = OpenResult.fatal ∧
    msr_open (OpenSysResult.fail NixError.otherErr) = OpenResult.fatal ∧
    (∀ pread, mainRun (OpenSysResult.fail (NixError.sysErr errnoEacces)) pread =
      MainResult.err "Permission denied") ∧
    (∀ r pread, (∀ fd, msr_open r ≠ OpenResult.ok fd) → mainProbed r pread = []) := by
  refine ⟨rfl, ?_, rfl, fun pread => rfl, ?_⟩
  · simp [msr_open, h]
  · intro r pread hr
    rcases ho : msr_open r with fd | s | _
    · exact absurd ho (hr fd)
    · simp [mainProbed, ho]
    · simp [mainProbed, ho]

/-- Witness for C8: a failed open with errno 1 (EPERM) panics and `main`
issues no probe. -/
theorem C8_open_failure_witness :
    msr_open (OpenSysResult.fail (NixError.sysErr 1)) = OpenResult.fatal ∧
    mainProbed (OpenSysResult.fail (NixError.sysErr 1))
      (fun _ => PreadResult.fail (NixError.sysErr 5)) = [] := by
  have h := C8_open_failure 1 (by decide)
  exact ⟨h.2.1, h.2.2.2.2 (OpenSysResult.fail (NixError.sysErr 1)) _
    (fun fd e => by simp [msr_open, errnoEacces] at e)⟩

/-- Claim C9: the scan is deterministic: it has no internal randomness and no
reordering, so whenever the probe outcomes are the same pure function of the
address across two runs over the candidate space, the two runs produce
identical Result Maps and identical output. -/
theorem C9_determinism (p1 p2 : Nat → MsrReadResult)
    (h : ∀ a ∈ candidateSpace, p1 a = p2 a) :
    scanGo p1 candidateSpace [] = scanGo p2 candidateSpace [] ∧
    scanOutput p1 candidateSpace = scanOutput p2 candidateSpace := by
  have he := scanGo_congr p1 p2 candidateSpace [] h
  refine ⟨he, ?_⟩
  simp only [scanOutput, he]

/-- Witness for C9: two runs with the spec's example probe (value = 2×address
on even addresses, expected failure on odd ones) agree. -/
theorem C9_determinism_witness :
    scanOutput (fun a => if a % 2 = 0 then MsrReadResult.ok (2 * a)
        else MsrReadResult.err "Unsupported MSR") candidateSpace =
      scanOutput (fun a => if a % 2 = 0 then MsrReadResult.ok (2 * a)
        else MsrReadResult.err "Unsupported MSR") candidateSpace :=
  (C9_determinism _ _ (fun _ _ => rfl)).2
